import Mathlib

/-!
Verification of the token-overflow compression subsystem
(backend/app/infrastructure: compression_service.py, token_error_analyzer.py,
llm_compression_engine.py).

Shallow embedding conventions:
* A chat message (a Python dict in the source) is the structure `Message`.
  The dict accessors msg.get("role", ...), msg.get("content", ""),
  msg.get("tool_call_id", "") are total on this structure; the optional
  synthetic-message markers _compressed and _compression_timestamp become a
  Bool and an Option Nat.
* Injected collaborators (the token analyzer, the compression engine, the
  underlying model call) are oracle functions; a Python call that may raise
  is an oracle returning Except String.  The try/except tiers of the source
  become explicit match expressions on those Except values.
* The wall-clock timestamp int(time.time()) is a parameter now : Nat.
* Python floats appear in exactly one place (max_tokens * 0.25); that
  computation is modelled bit-exactly over Nat further below.
-/

set_option autoImplicit false

namespace Compression

/-- A chat message record.  Mirrors the message dicts of the source: role,
content, tool_call_id (meaningful for role "tool", empty otherwise), and the
markers written by _build_compressed_message. -/
structure Message where
  role : String
  content : String
  tool_call_id : String
  compressed : Bool
  compression_timestamp : Option Nat
deriving DecidableEq, Repr

/-- Mirrors the pydantic CompressionSegment model of compression_result.py. -/
structure CompressionSegment where
  content : String
  estimated_tokens : Nat
  message_types : List String
deriving DecidableEq, Repr

/-! ## Token analyzer (token_error_analyzer.py)

parse_error_info runs re.search with four patterns (IGNORECASE) in order.
Each pattern is a sequence of literal runs, lazy gaps (.*?, which does not
cross a newline) and captured digit runs ((\d+), greedy).  The matcher below
implements exactly that backtracking search: lazy gaps try the shortest
extension first, digit groups try the longest run first, and re.search tries
every start position from the left.  Fuel bounds the recursion depth; the
supplied fuel exceeds the maximal depth for the given text, so the fueled
function agrees with the unbounded search. -/

/-- One regex token: a literal (compared case-insensitively), a lazy non-newline
gap, a captured digit run, or the internal backtracking state of a partially
kept digit run (reversed digits still held by the group). -/
inductive RTok where
  | lit : String → RTok
  | gap : RTok
  | num : RTok
  | numBT : List Char → RTok
deriving DecidableEq, Repr

/-- ASCII lowercase, for re.IGNORECASE literal comparison. -/
def lowerChar (c : Char) : Char :=
  if 'A' ≤ c ∧ c ≤ 'Z' then Char.ofNat (c.toNat + 32) else c

/-- Strip a literal from the front of the input, case-insensitively. -/
def stripPrefixCI : List Char → List Char → Option (List Char)
  | [], cs => some cs
  | _ :: _, [] => none
  | p :: ps, c :: cs => if lowerChar p = lowerChar c then stripPrefixCI ps cs else none

/-- Numeric value of a digit run given least-significant digit first. -/
def valOfRevDigits : List Char → Nat
  | [] => 0
  | d :: rds => (d.toNat - 48) + 10 * valOfRevDigits rds

/-- Backtracking matcher for one pattern anchored at the current position.
Returns the list of captured numbers of a successful match. -/
def reMatch : Nat → List RTok → List Char → Option (List Nat)
  | 0, _, _ => none
  | _ + 1, [], _ => some []
  | f + 1, .lit s :: ts, cs =>
    match stripPrefixCI s.data cs with
    | some cs' => reMatch f ts cs'
    | none => none
  | f + 1, .gap :: ts, cs =>
    match reMatch f ts cs with
    | some r => some r
    | none =>
      match cs with
      | [] => none
      | c :: rest => if c = '\n' then none else reMatch f (.gap :: ts) rest
  | f + 1, .num :: ts, cs =>
    let ds := cs.takeWhile Char.isDigit
    if ds = [] then none
    else reMatch f (.numBT ds.reverse :: ts) (cs.drop ds.length)
  | f + 1, .numBT rds :: ts, cs =>
    match rds with
    | [] => none
    | d :: rds' =>
      match reMatch f ts cs with
      | some caps => some (valOfRevDigits (d :: rds') :: caps)
      | none => reMatch f (.numBT rds' :: ts) (d :: cs)

/-- re.search: try the pattern at every start position, leftmost first. -/
def reSearch (ts : List RTok) : List Char → Option (List Nat)
  | [] =>
    match reMatch ((ts.length + 2) * 8) ts [] with
    | some r => some r
    | none => none
  | c :: rest =>
    match reMatch ((rest.length + 1 + ts.length + 2) * 8) ts (c :: rest) with
    | some r => some r
    | none => reSearch ts rest

/-- The four patterns of parse_error_info, in declaration order. -/
def overflowPatterns : List (List RTok) :=
  [[.lit "maximum context length is ", .num, .lit " tokens", .gap, .num, .lit " tokens"],
   [.lit "token limit", .gap, .num, .gap, .lit "current", .gap, .num],
   [.lit "context length exceeded", .gap, .num, .gap, .num],
   [.lit "Request too large", .gap, .num, .gap, .num]]

/-- Run one pattern over the text; a match yields its first two captures. -/
def runPattern (ts : List RTok) (s : String) : Option (Nat × Nat) :=
  match reSearch ts s.data with
  | some (n1 :: n2 :: _) => some (n1, n2)
  | _ => none

/-- First matching pattern wins, in declaration order. -/
def firstMatchAux (s : String) : List (List RTok) → Option (Nat × Nat)
  | [] => none
  | p :: ps =>
    match runPattern p s with
    | some r => some r
    | none => firstMatchAux s ps

/-- Ordered search over the pattern list of parse_error_info. -/
def firstPatternMatch (s : String) : Option (Nat × Nat) :=
  firstMatchAux s overflowPatterns

/-- TokenErrorAnalyzer.parse_error_info: first pattern that matches wins; the
smaller capture becomes max_tokens and the larger current_tokens; on no match
the conservative default pair is returned. -/
def parse_error_info (error_message : String) : Nat × Nat :=
  match firstPatternMatch error_message with
  | some (num1, num2) => (min num1 num2, max num1 num2)
  | none => (4096, 5000)

/-- TokenErrorAnalyzer.estimate_tokens: zero for empty text, otherwise
len(text) // 3. -/
def estimate_tokens (text : String) : Nat :=
  if text = "" then 0 else text.length / 3

/-! ## CPython float model for the single float expression of the service

handle_token_overflow computes system_budget = int(max_tokens * 0.25).  In
CPython this converts the int max_tokens to a 64-bit float (round to nearest,
53-bit significand, ties to even; OverflowError beyond the double range),
multiplies by 0.25 (exact: only the exponent changes), and truncates.  So the
result is (float64 value of max_tokens) / 4 in Nat division, and the whole
computation can raise only at the int-to-float conversion. -/

/-- Number of halvings until the value fits in 53 bits; the fuel (1200) exceeds
any exponent reachable below the 2 ^ 1024 overflow bound checked by pyFloat. -/
def findExpAux : Nat → Nat → Nat
  | 0, _ => 0
  | fuel + 1, m => if m < 2 ^ 53 then 0 else findExpAux fuel (m / 2) + 1

/-- Exponent of the unit in the last place of the float nearest to m. -/
def findExp (m : Nat) : Nat := findExpAux 1200 m

/-- Round m to a 53-bit significand, nearest, ties to even. -/
def rnd53 (m : Nat) : Nat :=
  let e := findExp m
  if e = 0 then m
  else
    let p := 2 ^ e
    let q := m / p
    let r := m % p
    let half := p / 2
    if r < half then q * p
    else if half < r then (q + 1) * p
    else if q % 2 = 0 then q * p else (q + 1) * p

/-- The double-range bound 2 ^ 1024, as a literal so that evaluation inside
kernel reductions needs no large exponentiation; pow2_1024_spec below proves
the value correct. -/
def pow2_1024 : Nat := 179769313486231590772930519078902473361797697894230657273430081157732675805500963132708477322407536021120113879871393357658789768814416622492847430639474124377767893424865485276302219601246094119453082952085005768838150682342462881473913110540827237163350510684586298239947245938479716304835356329624224137216

/-- CPython float(m) for a nonnegative int m: the rounded value, or
OverflowError when it does not fit in a 64-bit float (the value rounds to at
least 2 ^ 1024). -/
def pyFloat (m : Nat) : Except String Nat :=
  if m < pow2_1024 then
    let r := rnd53 m
    if r < pow2_1024 then Except.ok r else Except.error "int too large to convert to float"
  else Except.error "int too large to convert to float"

/-- The system_budget line of handle_token_overflow:
int(max_tokens * SYSTEM_PROMPT_RATIO) with SYSTEM_PROMPT_RATIO = 0.25. -/
def system_budget (max_tokens : Nat) : Except String Nat :=
  match pyFloat max_tokens with
  | Except.ok f => Except.ok (f / 4)
  | Except.error e => Except.error e

/-! ## Compression engine (llm_compression_engine.py)

The underlying model call self._llm.ask is an external collaborator: an oracle
taking the role/content pairs of the request and returning either the response
dict (modelled by its optional content field, read with .get("content", ""))
or a raised exception. -/

/-- The fixed system message of the compression request. -/
def compression_system_message : String :=
  "You are a professional content compression assistant. Please perform intelligent compression according to user requirements."

/-- LlmCompressionEngine._get_compression_prompt.  The braces of the JSON
example are written as escapes. -/
def get_compression_prompt (summary content : String) : String :=
  "\nPlease intelligently compress and summarize the following content, following these important rules:\n\n1. **JSON Structure Protection**: If content contains JSON format data (such as plans, steps, tool_calls, etc.), the JSON structure and all field values must be completely preserved\nEXAMPLE JSON:\n\x7b\n    \"message\": \"User response message\",\n    \"goal\": \"Goal description\",\n    \"title\": \"Plan title\",\n    \"steps\": [\n        \x7b\n            \"id\": \"1\",\n            \"description\": \"Step 1 description\"\n        \x7d\n    ]\n\x7d\nYou must return the JSON structure exactly as it is, without any modification or addition.\n\n2. **Key Information Retention**: Maintain accuracy and completeness of task objectives, execution status, and tool call results\n3. **Descriptive Compression**: Only compress and simplify descriptive text, preserve all structured data\n4. **Logical Coherence**: Ensure compressed content can support subsequent business logic processing\n\nCurrent accumulated summary:\n"
  ++ (if summary ≠ "" then summary else "(First compression, no historical summary)")
  ++ "\n\nNew content to be compressed:\n"
  ++ content
  ++ "\n\nPlease return the compressed content summary, ensuring all JSON structures and key business information are preserved:\n"

/-- LlmCompressionEngine._fallback_compression: deterministic truncation used
when the model call fails.  available_for_content is a Python int and can be
negative, hence the Int arithmetic. -/
def fallback_compression (summary content : String) (max_tokens : Nat) : String :=
  let target_length := max_tokens * 3
  if summary ≠ "" then
    let available_for_content : Int := (target_length : Int) - (summary.length : Int) - 100
    if 0 < available_for_content then
      summary ++ "\n\n[New Content Summary] " ++ content.take available_for_content.toNat ++ "..."
    else
      summary.take target_length ++ "..."
  else
    content.take target_length ++ "..."

/-- LlmCompressionEngine.compress_content: one model call through the llm
oracle; any failure of that call is absorbed into fallback_compression. -/
def compress_content (llm : List (String × String) → Except String (Option String))
    (summary content : String) (max_tokens : Nat) : String :=
  match llm [("system", compression_system_message),
             ("user", get_compression_prompt summary content)] with
  | Except.ok response => response.getD ""
  | Except.error _ => fallback_compression summary content max_tokens

/-! ## Compression service (compression_service.py)

The service is generic over its injected collaborators: parse (the analyzer's
parse_error_info, which a generic analyzer may let raise), est (the analyzer's
estimate_tokens) and engine (CompressionEngine.compress_content, whose call
may raise).  now stands for int(time.time()). -/

/-- CompressionService.MAX_COMPRESSION_ROUNDS. -/
def maxCompressionRounds : Nat := 3

/-- CompressionService._should_compress_message: only user and tool messages
are compressible. -/
def should_compress_message (message : Message) : Bool :=
  message.role == "user" || message.role == "tool"

/-- CompressionService._separate_messages_by_compression_policy: one pass that
appends each message to the system, compressible or protected group. -/
def separate_messages_by_compression_policy :
    List Message → List Message × List Message × List Message
  | [] => ([], [], [])
  | msg :: rest =>
    let (s, c, p) := separate_messages_by_compression_policy rest
    if msg.role == "system" then (msg :: s, c, p)
    else if should_compress_message msg then (s, msg :: c, p)
    else (s, c, msg :: p)

/-- CompressionService._format_message_content.  The source reads the role with
default "unknown" here; on this structure the role field is total. -/
def format_message_content (message : Message) : String :=
  if message.role == "tool" then
    "[Tool call result " ++ message.tool_call_id ++ "]: " ++ message.content
  else
    "[" ++ message.role ++ "]: " ++ message.content

/-- Loop body of _split_into_segments: the running state is the accumulated
segment content, its token count and the roles seen.  Python's
list(set(current_types)) has unspecified order; it is modelled as
insertion-order deduplication, and no theorem below depends on that field. -/
def split_into_segments_aux (est : String → Nat) (segment_budget : Nat) :
    List Message → String → Nat → List String → List CompressionSegment
  | [], current_content, current_tokens, current_types =>
    if current_content = "" then []
    else [⟨current_content, current_tokens, current_types.eraseDups⟩]
  | msg :: rest, current_content, current_tokens, current_types =>
    let msg_content := format_message_content msg
    let msg_tokens := est msg_content
    let msg_type := msg.role
    if segment_budget < current_tokens + msg_tokens ∧ current_content ≠ "" then
      ⟨current_content, current_tokens, current_types.eraseDups⟩ ::
        split_into_segments_aux est segment_budget rest msg_content msg_tokens [msg_type]
    else
      split_into_segments_aux est segment_budget rest
        (current_content ++ if current_content ≠ "" then "\n\n" ++ msg_content else msg_content)
        (current_tokens + msg_tokens) (current_types ++ [msg_type])

/-- CompressionService._split_into_segments. -/
def split_into_segments (est : String → Nat) (messages : List Message)
    (segment_budget : Nat) : List CompressionSegment :=
  split_into_segments_aux est segment_budget messages "" 0 []

/-- One iteration of the round loop of _progressive_compression: call the
engine; a raised exception from the engine is caught at the round level and
replaced by an inline placeholder.  _format_segment_content is the identity,
so the segment content is passed through unchanged. -/
def compression_round_step (engine : String → String → Nat → Except String String)
    (segment_budget : Nat) (round_num : Nat) (cumulative_summary : String)
    (segment : CompressionSegment) : String :=
  match engine cumulative_summary segment.content segment_budget with
  | Except.ok s => s
  | Except.error _ =>
    if cumulative_summary ≠ "" then
      cumulative_summary ++ "\n\n[Round " ++ toString (round_num + 1)
        ++ " compression failed, original content]: " ++ segment.content.take 200 ++ "..."
    else
      "[Compression failed, original content]: " ++ segment.content.take 500 ++ "..."

/-- The round loop of _progressive_compression, threading the cumulative
summary through the processed segments in order. -/
def compression_rounds_loop (engine : String → String → Nat → Except String String)
    (segment_budget : Nat) : Nat → String → List CompressionSegment → String
  | _, cumulative_summary, [] => cumulative_summary
  | round_num, cumulative_summary, segment :: rest =>
    compression_rounds_loop engine segment_budget (round_num + 1)
      (compression_round_step engine segment_budget round_num cumulative_summary segment) rest

/-- CompressionService._progressive_compression. -/
def progressive_compression (engine : String → String → Nat → Except String String)
    (est : String → Nat) (messages : List Message) (budget_tokens : Nat) : String :=
  let segment_budget := budget_tokens / 2
  let segments := split_into_segments est messages segment_budget
  let compression_rounds := min segments.length maxCompressionRounds
  let cumulative_summary :=
    compression_rounds_loop engine segment_budget 0 "" (segments.take compression_rounds)
  if maxCompressionRounds < segments.length then
    cumulative_summary ++ "\n\n[Notice: " ++ toString (segments.length - maxCompressionRounds)
      ++ " segments not processed due to compression round limit]"
  else
    cumulative_summary

/-- CompressionService._build_compressed_message with now = int(time.time()). -/
def build_compressed_message (now : Nat) (compressed_content : String) : Message :=
  { role := "user"
    content := "[Compressed historical conversation content]\n\n" ++ compressed_content
    tool_call_id := ""
    compressed := true
    compression_timestamp := some now }

/-- CompressionService._emergency_fallback: system messages plus a copy of the
last user message with the emergency prefix, or a synthesized placeholder when
no user message exists. -/
def emergency_fallback (messages : List Message) : List Message :=
  let system_messages := messages.filter (fun m => m.role == "system")
  let user_messages := messages.filter (fun m => m.role == "user")
  if h : user_messages ≠ [] then
    let last_user_msg := user_messages.getLast h
    system_messages ++ [{ last_user_msg with content := "[Emergency mode] " ++ last_user_msg.content }]
  else
    system_messages ++ [{ role := "user", content := "[Emergency mode] Please assist with current task.",
                          tool_call_id := "", compressed := false, compression_timestamp := none }]

/-- The try block of handle_token_overflow.  In this typed embedding the only
statements of the block that can raise are the analyzer call and the float
conversion of the budget line; a raised engine exception never escapes
_progressive_compression (it is caught at the round level). -/
def handle_token_overflow_body (parse : String → Except String (Nat × Nat))
    (est : String → Nat) (engine : String → String → Nat → Except String String)
    (now : Nat) (messages : List Message) (error_info : String) :
    Except String (List Message) :=
  match parse error_info with
  | Except.error e => Except.error e
  | Except.ok (max_tokens, _current_tokens) =>
    match system_budget max_tokens with
    | Except.error e => Except.error e
    | Except.ok system_budget_v =>
      let compression_budget := max_tokens - system_budget_v
      let (system_messages, compressible_messages, protected_messages) :=
        separate_messages_by_compression_policy messages
      let result_messages :=
        if compressible_messages = [] then system_messages
        else system_messages ++
          [build_compressed_message now
            (progressive_compression engine est compressible_messages compression_budget)]
      Except.ok (result_messages ++ protected_messages)

/-- CompressionService.handle_token_overflow: the try/except wrapper.  Any
exception escaping the try block is absorbed into the emergency fallback. -/
def handle_token_overflow (parse : String → Except String (Nat × Nat))
    (est : String → Nat) (engine : String → String → Nat → Except String String)
    (now : Nat) (messages : List Message) (error_info : String) : List Message :=
  match handle_token_overflow_body parse est engine now messages error_info with
  | Except.ok result_messages => result_messages
  | Except.error _ => emergency_fallback messages

/-! ## Segmentation: ghost grouping of messages into segments -/

/-- View of a segment by the two fields the claims constrain. -/
def segProj (seg : CompressionSegment) : String × Nat :=
  (seg.content, seg.estimated_tokens)

/-- Sum of the per-message estimates of the formatted contents of a group. -/
def sum_estimates (est : String → Nat) (group : List Message) : Nat :=
  (group.map (fun m => est (format_message_content m))).sum

/-- Concatenation with the two-character separator the segment builder uses
between messages. -/
def joinSep : List String → String
  | [] => ""
  | [s] => s
  | s :: rest => s ++ "\n\n" ++ joinSep rest

/-- The segment a group of messages would produce: joined formatted contents
and summed estimates. -/
def groupProj (est : String → Nat) (g : List Message) : String × Nat :=
  (joinSep (g.map format_message_content), sum_estimates est g)

/-- The protected group of the classification: neither a system message nor a
compressible one. -/
def is_protected_message (m : Message) : Bool :=
  !(m.role == "system") && !(should_compress_message m)

/-! ## Concrete messages used by witnesses -/

def mkUserMsg (content : String) : Message :=
  ⟨"user", content, "", false, none⟩

def mkSystemMsg (content : String) : Message :=
  ⟨"system", content, "", false, none⟩

def mkAssistantMsg (content : String) : Message :=
  ⟨"assistant", content, "", false, none⟩

def mkToolMsg (tid content : String) : Message :=
  ⟨"tool", content, tid, false, none⟩


/-- Instrumented round loop: besides the cumulative summary it records, for
each engine invocation in order, the (input summary, segment content, budget)
arguments passed to the engine.  This is the round loop of
_progressive_compression with a ghost trace attached. -/
def compression_rounds_trace (engine : String → String → Nat → Except String String)
    (segment_budget : Nat) : Nat → String → List CompressionSegment →
      String × List (String × String × Nat)
  | _, cumulative_summary, [] => (cumulative_summary, [])
  | round_num, cumulative_summary, segment :: rest =>
    let next := compression_rounds_trace engine segment_budget (round_num + 1)
      (compression_round_step engine segment_budget round_num cumulative_summary segment) rest
    (next.1, (cumulative_summary, segment.content, segment_budget) :: next.2)

/-- The list of engine invocations a run of _progressive_compression makes. -/
def engine_call_trace (engine : String → String → Nat → Except String String)
    (est : String → Nat) (messages : List Message) (budget_tokens : Nat) :
    List (String × String × Nat) :=
  (compression_rounds_trace engine (budget_tokens / 2) 0 ""
    ((split_into_segments est messages (budget_tokens / 2)).take
      (min (split_into_segments est messages (budget_tokens / 2)).length
        maxCompressionRounds))).2

theorem str_pos_iff (s : String) : s ≠ "" ↔ 0 < s.length := by
  cases s with
  | mk data =>
    cases data with
    | nil => simp [String.length]
    | cons c cs => simp [String.length, String.ext_iff]

theorem format_message_content_ne_empty (m : Message) : format_message_content m ≠ "" := by
  rw [str_pos_iff, format_message_content]
  split_ifs with h
  · have h1 : ("[Tool call result " : String).length = 18 := rfl
    simp [String.length_append, h1]
  · have h1 : ("[" : String).length = 1 := rfl
    simp [String.length_append, h1]

theorem joinSep_cons₂ (s t : String) (ts : List String) :
    joinSep (s :: t :: ts) = s ++ "\n\n" ++ joinSep (t :: ts) := rfl

theorem joinSep_ne_empty :
    ∀ l : List String, l ≠ [] → (∀ s ∈ l, s ≠ "") → joinSep l ≠ "" := by
  intro l
  cases l with
  | nil => intro h; exact absurd rfl h
  | cons s rest =>
    intro _ hall
    cases rest with
    | nil => simpa [joinSep] using hall s (by simp)
    | cons t ts =>
      rw [joinSep_cons₂, str_pos_iff]
      have h2 : ("\n\n" : String).length = 2 := rfl
      simp [String.length_append, h2]

theorem joinSep_append_singleton :
    ∀ (l : List String) (x : String), l ≠ [] →
      joinSep (l ++ [x]) = joinSep l ++ "\n\n" ++ x := by
  intro l
  induction l with
  | nil => intro x h; exact absurd rfl h
  | cons s rest ih =>
    intro x _
    cases rest with
    | nil => rfl
    | cons t ts =>
      have h := ih x (by simp)
      simp only [List.cons_append] at h ⊢
      rw [joinSep_cons₂, joinSep_cons₂, h]
      simp [String.append_assoc]

theorem sum_estimates_append (est : String → Nat) (g₁ g₂ : List Message) :
    sum_estimates est (g₁ ++ g₂) = sum_estimates est g₁ + sum_estimates est g₂ := by
  simp [sum_estimates]

theorem sum_estimates_singleton (est : String → Nat) (m : Message) :
    sum_estimates est [m] = est (format_message_content m) := by
  simp [sum_estimates]

/-- Unfolding equation of the segment-builder loop at the empty list. -/
theorem split_aux_nil (est : String → Nat) (budget : Nat) (cc : String) (ct : Nat)
    (cty : List String) :
    split_into_segments_aux est budget [] cc ct cty =
      if cc = "" then [] else [⟨cc, ct, cty.eraseDups⟩] := rfl

/-- Unfolding equation of the segment-builder loop at a cons. -/
theorem split_aux_cons (est : String → Nat) (budget : Nat) (msg : Message)
    (rest : List Message) (cc : String) (ct : Nat) (cty : List String) :
    split_into_segments_aux est budget (msg :: rest) cc ct cty =
      if budget < ct + est (format_message_content msg) ∧ cc ≠ "" then
        ⟨cc, ct, cty.eraseDups⟩ ::
          split_into_segments_aux est budget rest (format_message_content msg)
            (est (format_message_content msg)) [msg.role]
      else
        split_into_segments_aux est budget rest
          (cc ++ if cc ≠ "" then "\n\n" ++ format_message_content msg
                 else format_message_content msg)
          (ct + est (format_message_content msg)) (cty ++ [msg.role]) := rfl

/-- Workhorse invariant of the segment builder: starting from a nonempty
current group g (current content = joined formatted contents of g, current
token count = summed estimates of g), the builder partitions the remaining
input into a prefix ext that extends g and further nonempty groups, each group
within budget unless it is a single message, and the produced segments are
exactly the projections of those groups. -/
theorem split_aux_groups (est : String → Nat) (budget : Nat) :
    ∀ (msgs g : List Message) (cty : List String), g ≠ [] →
      sum_estimates est g ≤ budget ∨ g.length = 1 →
      ∃ (ext : List Message) (groups : List (List Message)),
        msgs = ext ++ groups.flatten
        ∧ (∀ x ∈ groups, x ≠ [])
        ∧ (∀ x ∈ groups, sum_estimates est x ≤ budget ∨ x.length = 1)
        ∧ (sum_estimates est (g ++ ext) ≤ budget ∨ (g ++ ext).length = 1)
        ∧ (split_into_segments_aux est budget msgs
            (joinSep (g.map format_message_content)) (sum_estimates est g) cty).map segProj
          = groupProj est (g ++ ext) :: groups.map (groupProj est) := by
  intro msgs
  induction msgs with
  | nil =>
    intro g cty hg hbud
    refine ⟨[], [], by simp, by simp, by simp, by simpa using hbud, ?_⟩
    have hcc : joinSep (g.map format_message_content) ≠ "" := by
      refine joinSep_ne_empty _ (by simpa using hg) ?_
      intro s hs
      obtain ⟨m, _, rfl⟩ := List.mem_map.1 hs
      exact format_message_content_ne_empty m
    rw [split_aux_nil, if_neg hcc]
    simp [segProj, groupProj]
  | cons msg rest ih =>
    intro g cty hg hbud
    have hcc : joinSep (g.map format_message_content) ≠ "" := by
      refine joinSep_ne_empty _ (by simpa using hg) ?_
      intro s hs
      obtain ⟨m, _, rfl⟩ := List.mem_map.1 hs
      exact format_message_content_ne_empty m
    rw [split_aux_cons]
    by_cases hlt : budget < sum_estimates est g + est (format_message_content msg)
    · rw [if_pos ⟨hlt, hcc⟩]
      obtain ⟨ext', groups', hrest, hne, hbud', hfirst, hmap⟩ :=
        ih [msg] [msg.role] (by simp) (Or.inr rfl)
      refine ⟨[], (msg :: ext') :: groups', ?_, ?_, ?_, ?_, ?_⟩
      · simpa using hrest
      · intro x hx
        rcases List.mem_cons.1 hx with rfl | hx'
        · simp
        · exact hne x hx'
      · intro x hx
        rcases List.mem_cons.1 hx with rfl | hx'
        · simpa using hfirst
        · exact hbud' x hx'
      · simpa using hbud
      · rw [List.map_cons]
        have hsing : joinSep ([msg].map format_message_content)
            = format_message_content msg := rfl
        rw [hsing, sum_estimates_singleton] at hmap
        rw [hmap]
        simp [segProj, groupProj]
    · rw [if_neg (fun hand => hlt hand.1)]
      have hjoin : joinSep ((g ++ [msg]).map format_message_content)
          = joinSep (g.map format_message_content)
            ++ ("\n\n" ++ format_message_content msg) := by
        rw [List.map_append,
          show List.map format_message_content [msg]
            = [format_message_content msg] from rfl]
        rw [joinSep_append_singleton _ _ (by simpa using hg)]
        rw [String.append_assoc]
      have hsum : sum_estimates est (g ++ [msg])
          = sum_estimates est g + est (format_message_content msg) := by
        rw [sum_estimates_append, sum_estimates_singleton]
      obtain ⟨ext', groups', hrest, hne, hbud', hfirst, hmap⟩ :=
        ih (g ++ [msg]) (cty ++ [msg.role]) (by simp)
          (Or.inl (by rw [hsum]; omega))
      refine ⟨msg :: ext', groups', ?_, hne, hbud', ?_, ?_⟩
      · simp [hrest]
      · have hgl : (g ++ [msg]) ++ ext' = g ++ (msg :: ext') := by simp
        rw [hgl] at hfirst
        exact hfirst
      · rw [if_pos hcc, show joinSep (g.map format_message_content)
            ++ ("\n\n" ++ format_message_content msg)
            = joinSep ((g ++ [msg]).map format_message_content) from hjoin.symm,
          show sum_estimates est g + est (format_message_content msg)
            = sum_estimates est (g ++ [msg]) from hsum.symm]
        have hgl : (g ++ [msg]) ++ ext' = g ++ (msg :: ext') := by simp
        rw [hgl] at hmap
        exact hmap

/-- Top-level grouping: the segments of split_into_segments are exactly the
projections of a partition of the input into nonempty consecutive groups,
each within budget unless it is a single message. -/
theorem split_groups (est : String → Nat) (msgs : List Message) (budget : Nat) :
    ∃ groups : List (List Message),
      groups.flatten = msgs
      ∧ (∀ x ∈ groups, x ≠ [])
      ∧ (∀ x ∈ groups, sum_estimates est x ≤ budget ∨ x.length = 1)
      ∧ (split_into_segments est msgs budget).map segProj
          = groups.map (groupProj est) := by
  cases msgs with
  | nil => exact ⟨[], rfl, by simp, by simp, rfl⟩
  | cons msg rest =>
    obtain ⟨ext', groups', hrest, hne, hbud', hfirst, hmap⟩ :=
      split_aux_groups est budget rest [msg] [msg.role] (by simp) (Or.inr rfl)
    refine ⟨(msg :: ext') :: groups', ?_, ?_, ?_, ?_⟩
    · simp [hrest]
    · intro x hx
      rcases List.mem_cons.1 hx with rfl | hx'
      · simp
      · exact hne x hx'
    · intro x hx
      rcases List.mem_cons.1 hx with rfl | hx'
      · simpa using hfirst
      · exact hbud' x hx'
    · rw [split_into_segments, split_aux_cons, if_neg (by simp)]
      have harg : (("" : String) ++
          if ("" : String) ≠ "" then "\n\n" ++ format_message_content msg
          else format_message_content msg) = joinSep ([msg].map format_message_content) := by
        rw [if_neg (fun h => h rfl), String.empty_append]
        rfl
      rw [harg, show 0 + est (format_message_content msg) = sum_estimates est [msg] by
        rw [sum_estimates_singleton]; omega]
      rw [List.map_cons]
      exact hmap

/-- The builder emits at least one segment when the current content is
nonempty. -/
theorem split_aux_ge_one (est : String → Nat) (budget : Nat) :
    ∀ (msgs : List Message) (cc : String) (ct : Nat) (cty : List String),
      cc ≠ "" → 1 ≤ (split_into_segments_aux est budget msgs cc ct cty).length := by
  intro msgs
  induction msgs with
  | nil =>
    intro cc ct cty hcc
    rw [split_aux_nil, if_neg hcc]
    simp
  | cons msg rest ih =>
    intro cc ct cty hcc
    rw [split_aux_cons]
    by_cases hC : budget < ct + est (format_message_content msg) ∧ cc ≠ ""
    · rw [if_pos hC]
      simp
    · rw [if_neg hC]
      refine ih _ _ _ ?_
      rw [if_pos hcc, str_pos_iff, String.length_append]
      have := (str_pos_iff cc).1 hcc
      omega

/-- The builder splits at least once when the current content is nonempty and
the remaining estimates overflow the budget. -/
theorem split_aux_two (est : String → Nat) (budget : Nat) :
    ∀ (msgs : List Message) (cc : String) (ct : Nat) (cty : List String),
      cc ≠ "" → msgs ≠ [] → budget < ct + sum_estimates est msgs →
      2 ≤ (split_into_segments_aux est budget msgs cc ct cty).length := by
  intro msgs
  induction msgs with
  | nil =>
    intro _ _ _ _ h2 _
    exact absurd rfl h2
  | cons msg rest ih =>
    intro cc ct cty hcc _ hover
    rw [split_aux_cons]
    by_cases hlt : budget < ct + est (format_message_content msg)
    · rw [if_pos ⟨hlt, hcc⟩]
      have h1 := split_aux_ge_one est budget rest (format_message_content msg)
        (est (format_message_content msg)) [msg.role] (format_message_content_ne_empty msg)
      simp only [List.length_cons]
      omega
    · rw [if_neg (fun h => hlt h.1)]
      have hrest : rest ≠ [] := by
        intro hr
        refine hlt ?_
        rw [hr, sum_estimates_singleton] at hover
        exact hover
      refine ih _ _ _ ?_ hrest ?_
      · rw [if_pos hcc, str_pos_iff, String.length_append]
        have := (str_pos_iff cc).1 hcc
        omega
      · have hsum : sum_estimates est (msg :: rest)
            = est (format_message_content msg) + sum_estimates est rest := by
          simp [sum_estimates]
        rw [hsum] at hover
        omega

/-- Segment estimates are additive over the ghost grouping. -/
theorem sum_estimates_flatten (est : String → Nat) :
    ∀ groups : List (List Message),
      (groups.map (sum_estimates est)).sum = sum_estimates est groups.flatten := by
  intro groups
  induction groups with
  | nil => simp [sum_estimates]
  | cons g gs ih => simp [sum_estimates, ih, List.map_append, List.sum_append] at *

theorem pow2_1024_spec : pow2_1024 = 2 ^ 1024 := by
  have h64 : (2 : Nat) ^ 64 = 18446744073709551616 := by norm_num
  have h : (18446744073709551616 : Nat) ^ 16 = pow2_1024 := by norm_num [pow2_1024]
  rw [← h, ← h64, ← pow_mul, show (64 * 16 : Nat) = 1024 from by norm_num]

/-- Unfolding equation for one fuel step of findExpAux. -/
theorem findExpAux_succ (fuel m : Nat) :
    findExpAux (fuel + 1) m = if m < 2 ^ 53 then 0 else findExpAux fuel (m / 2) + 1 := rfl

/-- The single classification pass produces exactly the three order-preserving
filters of the input. -/
theorem separate_eq_filters (messages : List Message) :
    separate_messages_by_compression_policy messages =
      (messages.filter (fun m => m.role == "system"),
       messages.filter should_compress_message,
       messages.filter is_protected_message) := by
  induction messages with
  | nil => rfl
  | cons msg rest ih =>
    simp only [separate_messages_by_compression_policy, ih, List.filter_cons]
    by_cases hs : (msg.role == "system") = true
    · have hrole : msg.role = "system" := by simpa using hs
      have hc : should_compress_message msg = false := by
        simp [should_compress_message, hrole]
      have hp : is_protected_message msg = false := by
        simp [is_protected_message, hs]
      simp [hs, hc, hp]
    · by_cases hcc : should_compress_message msg = true
      · have hp : is_protected_message msg = false := by
          simp [is_protected_message, hcc]
        simp [hs, hcc, hp]
      · have hp : is_protected_message msg = true := by
          simp [is_protected_message, hs, hcc]
        simp [hs, hcc, hp]

/-- The trace projects onto the plain loop, and its j-th entry records as
input summary the loop value over the first j segments: rounds are strictly
sequential, each consuming the previous round's output. -/
theorem compression_rounds_trace_spec (engine : String → String → Nat → Except String String)
    (sb : Nat) :
    ∀ (l : List CompressionSegment) (i : Nat) (acc : String),
      compression_rounds_trace engine sb i acc l
        = (compression_rounds_loop engine sb i acc l,
           (List.range l.length).map (fun j =>
             (compression_rounds_loop engine sb i acc (l.take j),
              (l.getD j ⟨"", 0, []⟩).content, sb))) := by
  intro l
  induction l with
  | nil =>
    intro i acc
    rfl
  | cons seg rest ih =>
    intro i acc
    have hstep : compression_rounds_trace engine sb i acc (seg :: rest)
        = ((compression_rounds_trace engine sb (i + 1)
            (compression_round_step engine sb i acc seg) rest).1,
          (acc, seg.content, sb) ::
            (compression_rounds_trace engine sb (i + 1)
              (compression_round_step engine sb i acc seg) rest).2) := rfl
    rw [hstep, ih]
    refine Prod.ext_iff.2 ⟨rfl, ?_⟩
    dsimp only
    rw [List.length_cons, List.range_succ_eq_map, List.map_cons, List.map_map]
    congr 1

theorem getD_take {α : Type} :
    ∀ (l : List α) (k j : Nat) (d : α), j < k → (l.take k).getD j d = l.getD j d := by
  intro l
  induction l with
  | nil =>
    intro k j d _
    simp
  | cons a t ih =>
    intro k j d hjk
    cases k with
    | zero => omega
    | succ k' =>
      cases j with
      | zero => simp
      | succ j' =>
        simp only [List.take_succ_cons, List.getD_cons_succ]
        exact ih k' j' d (by omega)

/-! ## Claim C7: parse_error_info normalization and defaults -/

/-- C7: for every error text, when one of the ordered patterns matches,
parse_error_info returns (smaller capture, larger capture) regardless of their
positions in the text, and when none matches it returns the conservative
default pair (4096, 5000); in particular the OpenAI-style example yields
(4096, 5000) and a garbled text yields the default pair. -/
theorem parse_error_info_normalizes :
    (∀ s : String,
      (∀ n1 n2, firstPatternMatch s = some (n1, n2) →
        parse_error_info s = (min n1 n2, max n1 n2))
      ∧ (firstPatternMatch s = none → parse_error_info s = (4096, 5000))
      ∧ (parse_error_info s).1 ≤ (parse_error_info s).2)
    ∧ parse_error_info "maximum context length is 4096 tokens, however you requested 5000 tokens" = (4096, 5000)
    ∧ parse_error_info "garbled text with no numbers" = (4096, 5000) := by
  refine ⟨fun s => ⟨?_, ?_, ?_⟩, by decide, by decide⟩
  · intro n1 n2 h
    simp [parse_error_info, h]
  · intro h
    simp [parse_error_info, h]
  · cases h : firstPatternMatch s with
    | none => simp [parse_error_info, h]
    | some p =>
      cases p with
      | mk a b =>
        simp only [parse_error_info, h]
        exact min_le_max

/-- Witness for C7 at a text whose captures appear in (current, limit) order:
the pair is normalized to (limit, current). -/
theorem parse_error_info_normalizes_witness :
    firstPatternMatch "context length exceeded: 5000 > 4096" = some (5000, 4096)
    ∧ parse_error_info "context length exceeded: 5000 > 4096" = (min 5000 4096, max 5000 4096) :=
  ⟨by decide, (parse_error_info_normalizes.1 "context length exceeded: 5000 > 4096").1 5000 4096 (by decide)⟩

/-! ## Claim C8: budget arithmetic -/

theorem pow2_53_le_pow2_1024 : (2 : Nat) ^ 53 ≤ pow2_1024 := by
  rw [pow2_1024_spec]
  exact Nat.pow_le_pow_right (by norm_num) (by norm_num)

/-- C8 (amended): for max_tokens below 2 ^ 53 the int-to-float conversion is
exact, so system_budget equals the exact integer floor max_tokens / 4
(characterized without division: 4 * b ≤ max_tokens < 4 * b + 4); the try
block then hands progressive compression the compression budget
max_tokens - system_budget, and every engine invocation receives the segment
budget compression_budget / 2.  Beyond 2 ^ 53 the float-based source
computation can deviate from the exact floor. -/
theorem budget_arithmetic_exact_below_2pow53 :
    ∀ max_tokens : Nat, max_tokens < 2 ^ 53 →
      system_budget max_tokens = Except.ok (max_tokens / 4)
      ∧ pyFloat max_tokens = Except.ok max_tokens
      ∧ 4 * (max_tokens / 4) ≤ max_tokens
      ∧ max_tokens < 4 * (max_tokens / 4) + 4
      ∧ (∀ (parse : String → Except String (Nat × Nat)) (est : String → Nat)
          (engine : String → String → Nat → Except String String)
          (now : Nat) (msgs : List Message) (err : String) (c : Nat),
          parse err = Except.ok (max_tokens, c) →
          handle_token_overflow_body parse est engine now msgs err
            = Except.ok (msgs.filter (fun m => m.role == "system")
                ++ (if msgs.filter should_compress_message = [] then []
                    else [build_compressed_message now
                      (progressive_compression engine est
                        (msgs.filter should_compress_message)
                        (max_tokens - max_tokens / 4))])
                ++ msgs.filter is_protected_message))
      ∧ (∀ (engine : String → String → Nat → Except String String) (est : String → Nat)
          (msgs : List Message) (entry : String × String × Nat),
          entry ∈ engine_call_trace engine est msgs (max_tokens - max_tokens / 4) →
          entry.2.2 = (max_tokens - max_tokens / 4) / 2) := by
  intro m hm
  have hexp : findExp m = 0 := by
    unfold findExp
    rw [show (1200 : Nat) = 1199 + 1 from rfl, findExpAux_succ, if_pos hm]
  have hrnd : rnd53 m = m := by
    rw [rnd53]
    simp [hexp]
  have hlt : m < pow2_1024 := lt_of_lt_of_le hm pow2_53_le_pow2_1024
  have hpf : pyFloat m = Except.ok m := by
    rw [pyFloat]
    simp [hlt, hrnd]
  have hsys : system_budget m = Except.ok (m / 4) := by
    rw [system_budget, hpf]
  refine ⟨hsys, hpf, by omega, by omega, ?_, ?_⟩
  · intro parse est engine now msgs err c hp
    unfold handle_token_overflow_body
    rw [hp]
    dsimp only
    rw [hsys]
    dsimp only
    rw [separate_eq_filters]
    dsimp only
    by_cases hc : msgs.filter should_compress_message = []
    · simp [hc]
    · simp [hc]
  · intro engine est msgs entry hent
    rw [engine_call_trace, compression_rounds_trace_spec] at hent
    dsimp only at hent
    obtain ⟨j, _, hj⟩ := List.mem_map.1 hent
    rw [← hj]

/-- Witness for C8 at the parsed OpenAI default limit 4096: the try block
passes progressive compression the budget 4096 - 1024 = 3072. -/
theorem budget_arithmetic_witness :
    (4096 : Nat) < 2 ^ 53
    ∧ system_budget 4096 = Except.ok (4096 / 4)
    ∧ handle_token_overflow_body (fun _ => Except.ok (4096, 5000)) estimate_tokens
        (fun _ _ _ => Except.ok "S") 2 [mkUserMsg "m"] "x"
      = Except.ok ([mkUserMsg "m"].filter (fun m => m.role == "system")
          ++ (if [mkUserMsg "m"].filter should_compress_message = [] then []
              else [build_compressed_message 2
                (progressive_compression (fun _ _ _ => Except.ok "S") estimate_tokens
                  ([mkUserMsg "m"].filter should_compress_message) (4096 - 4096 / 4))])
          ++ [mkUserMsg "m"].filter is_protected_message) :=
  ⟨by norm_num, (budget_arithmetic_exact_below_2pow53 4096 (by norm_num)).1,
   (budget_arithmetic_exact_below_2pow53 4096 (by norm_num)).2.2.2.2.1
     (fun _ => Except.ok (4096, 5000)) estimate_tokens (fun _ _ _ => Except.ok "S")
     2 [mkUserMsg "m"] "x" 5000 rfl⟩

/-- C8 counterexample: at max_tokens = 2 ^ 55 + 6 (a value the analyzer can
parse out of an error text) the source computes int(max_tokens * 0.25) through
a 64-bit float and gets 9007199254740994, one more than the exact floor
36028797018963974 / 4 = 9007199254740993, so the budgets are not computed by
exact integer arithmetic for every analyzer output. -/
theorem system_budget_not_exact_floor :
    system_budget 36028797018963974 = Except.ok 9007199254740994
    ∧ 36028797018963974 / 4 = 9007199254740993 :=
  ⟨rfl, by norm_num⟩

/-! ## Claim C4: segmentation invariants -/

/-- C4 (amended): with a positive segment budget, (1) every produced segment
is within budget unless it is the formatted content of exactly one message
whose own estimate exceeds the budget, (2) when the input holds at least two
messages and their total estimate exceeds the budget, more than one segment is
produced, and (3) segmentation consumes its whole input: the segment
estimates sum to the total estimate of all messages.  The two-message
requirement in (2) is forced by the single-oversized-message counterexample
below. -/
theorem split_into_segments_budget_invariant :
    ∀ (msgs : List Message) (segment_budget : Nat), 0 < segment_budget →
      (∀ seg ∈ split_into_segments estimate_tokens msgs segment_budget,
        seg.estimated_tokens ≤ segment_budget
        ∨ ∃ m, m ∈ msgs ∧ seg.content = format_message_content m
            ∧ seg.estimated_tokens = estimate_tokens (format_message_content m)
            ∧ segment_budget < seg.estimated_tokens)
      ∧ (2 ≤ msgs.length → segment_budget < sum_estimates estimate_tokens msgs →
          2 ≤ (split_into_segments estimate_tokens msgs segment_budget).length)
      ∧ ((split_into_segments estimate_tokens msgs segment_budget).map
          CompressionSegment.estimated_tokens).sum = sum_estimates estimate_tokens msgs := by
  intro msgs budget _hpos
  obtain ⟨groups, hjoin, hne, hbud, hmap⟩ := split_groups estimate_tokens msgs budget
  refine ⟨?_, ?_, ?_⟩
  · intro seg hseg
    have hmem : segProj seg ∈ (split_into_segments estimate_tokens msgs budget).map segProj :=
      List.mem_map_of_mem _ hseg
    rw [hmap] at hmem
    obtain ⟨grp, hgrp, heq⟩ := List.mem_map.1 hmem
    rcases hbud grp hgrp with hle | hlen
    · left
      have hsnd : seg.estimated_tokens = sum_estimates estimate_tokens grp := by
        have h2 := congrArg Prod.snd heq
        simpa [groupProj, segProj] using h2.symm
      omega
    · obtain ⟨m, rfl⟩ : ∃ m, grp = [m] := by
        cases grp with
        | nil => simp at hlen
        | cons a t =>
          cases t with
          | nil => exact ⟨a, rfl⟩
          | cons b t2 => simp at hlen
      have hc : seg.content = format_message_content m := by
        have h1 := congrArg Prod.fst heq
        simpa [groupProj, segProj, joinSep] using h1.symm
      have he : seg.estimated_tokens = estimate_tokens (format_message_content m) := by
        have h2 := congrArg Prod.snd heq
        simpa [groupProj, segProj, sum_estimates] using h2.symm
      by_cases hcase : seg.estimated_tokens ≤ budget
      · exact Or.inl hcase
      · have hmmem : m ∈ msgs := by
          rw [← hjoin]
          exact List.mem_flatten.2 ⟨[m], hgrp, by simp⟩
        exact Or.inr ⟨m, hmmem, hc, he, by omega⟩
  · intro hlen hover
    cases msgs with
    | nil => simp at hlen
    | cons msg rest =>
      have hrest : rest ≠ [] := by
        intro h
        rw [h] at hlen
        simp at hlen
      rw [split_into_segments, split_aux_cons, if_neg (by simp)]
      refine split_aux_two estimate_tokens budget rest _ _ _ ?_ hrest ?_
      · simpa using format_message_content_ne_empty msg
      · have hsum : sum_estimates estimate_tokens (msg :: rest)
            = estimate_tokens (format_message_content msg)
              + sum_estimates estimate_tokens rest := by
          simp [sum_estimates]
        rw [hsum] at hover
        omega
  · have h2 := congrArg (List.map Prod.snd) hmap
    have hL : (split_into_segments estimate_tokens msgs budget).map
        CompressionSegment.estimated_tokens
        = groups.map (sum_estimates estimate_tokens) := by
      simpa [List.map_map, segProj, groupProj, Function.comp] using h2
    rw [hL, ← hjoin]
    exact sum_estimates_flatten estimate_tokens groups

/-- Witness for C4: two user messages totalling 12 estimated tokens against
budget 3 yield more than one segment. -/
theorem split_into_segments_budget_invariant_witness :
    2 ≤ (split_into_segments estimate_tokens
          [mkUserMsg "hello world", mkUserMsg "hello world"] 3).length :=
  (split_into_segments_budget_invariant
      [mkUserMsg "hello world", mkUserMsg "hello world"] 3 (by decide)).2.1
    (by decide) (by decide)

/-- C4 counterexample: a single user message formats to 20 characters, so its
estimate 6 exceeds the positive budget 3, the total estimate exceeds the
budget, yet segmentation produces exactly one segment, not more than one. -/
theorem oversized_singleton_single_segment :
    (0 : Nat) < 3
    ∧ 3 < sum_estimates estimate_tokens [mkUserMsg "aaaaaaaaaaaa"]
    ∧ (split_into_segments estimate_tokens [mkUserMsg "aaaaaaaaaaaa"] 3).length = 1 := by
  decide

/-! ## Claim C10: segment token accounting -/

theorem estimate_tokens_eq (s : String) : estimate_tokens s = s.length / 3 := by
  rw [estimate_tokens]
  split_ifs with h
  · subst h
    rfl
  · rfl

theorem joinSep_length :
    ∀ l : List String, l ≠ [] →
      (joinSep l).length = (l.map String.length).sum + 2 * (l.length - 1) := by
  intro l
  induction l with
  | nil =>
    intro h
    exact absurd rfl h
  | cons s rest ih =>
    intro _
    cases rest with
    | nil => simp [joinSep]
    | cons t ts =>
      rw [joinSep_cons₂, String.length_append, String.length_append, ih (by simp)]
      have h2 : ("\n\n" : String).length = 2 := rfl
      simp only [List.map_cons, List.sum_cons, List.length_cons, h2]
      omega

theorem sum_div3_le : ∀ ns : List Nat, (ns.map (· / 3)).sum ≤ ns.sum / 3 := by
  intro ns
  induction ns with
  | nil => simp
  | cons n t ih =>
    simp only [List.map_cons, List.sum_cons]
    omega

/-- C10: the segments of split_into_segments project onto a partition of the
input into nonempty consecutive groups: each segment content is the
separator-joined formatted contents of its group and each estimated_tokens
field is the sum of estimate_tokens over exactly the formatted contents of
that group, the two-character separators being uncounted; consequently every
segment estimate is at most estimate_tokens of its full content. -/
theorem split_segments_token_accounting :
    ∀ (msgs : List Message) (segment_budget : Nat),
      ∃ groups : List (List Message),
        groups.flatten = msgs
        ∧ (∀ g ∈ groups, g ≠ [])
        ∧ (split_into_segments estimate_tokens msgs segment_budget).map segProj
            = groups.map (groupProj estimate_tokens)
        ∧ ∀ seg ∈ split_into_segments estimate_tokens msgs segment_budget,
            seg.estimated_tokens ≤ estimate_tokens seg.content := by
  intro msgs budget
  obtain ⟨groups, hjoin, hne, _hbud, hmap⟩ := split_groups estimate_tokens msgs budget
  refine ⟨groups, hjoin, hne, hmap, ?_⟩
  intro seg hseg
  have hmem : segProj seg ∈ (split_into_segments estimate_tokens msgs budget).map segProj :=
    List.mem_map_of_mem _ hseg
  rw [hmap] at hmem
  obtain ⟨grp, hgrp, heq⟩ := List.mem_map.1 hmem
  have hc : seg.content = joinSep (grp.map format_message_content) := by
    have h1 := congrArg Prod.fst heq
    simpa [groupProj, segProj] using h1.symm
  have he : seg.estimated_tokens = sum_estimates estimate_tokens grp := by
    have h2 := congrArg Prod.snd heq
    simpa [groupProj, segProj] using h2.symm
  rw [hc, he, estimate_tokens_eq]
  have hgne : grp.map format_message_content ≠ [] := by
    simpa using hne grp hgrp
  rw [joinSep_length _ hgne]
  have h1 : sum_estimates estimate_tokens grp
      = (((grp.map format_message_content).map String.length).map (· / 3)).sum := by
    simp only [sum_estimates, List.map_map]
    have hfun : (fun m => estimate_tokens (format_message_content m))
        = ((fun x => x / 3) ∘ String.length ∘ format_message_content) := by
      funext m
      simp [Function.comp, estimate_tokens_eq]
    rw [hfun]
  rw [h1]
  have h2 := sum_div3_le ((grp.map format_message_content).map String.length)
  have h3 : ((grp.map format_message_content).map String.length).sum / 3
      ≤ (((grp.map format_message_content).map String.length).sum
          + 2 * ((grp.map format_message_content).length - 1)) / 3 :=
    Nat.div_le_div_right (by omega)
  omega

/-! ## The try block: shape of a successful run -/

/-- Any successful run of the try block produces exactly: the system filter,
then the optional synthetic message built from the progressive compression of
the compressible filter at some budget, then the protected filter. -/
theorem handle_body_ok_shape (parse : String → Except String (Nat × Nat))
    (est : String → Nat) (engine : String → String → Nat → Except String String)
    (now : Nat) (msgs : List Message) (err : String) (out : List Message) :
    handle_token_overflow_body parse est engine now msgs err = Except.ok out →
    ∃ budget : Nat,
      out = msgs.filter (fun m => m.role == "system")
        ++ (if msgs.filter should_compress_message = [] then []
            else [build_compressed_message now
              (progressive_compression engine est (msgs.filter should_compress_message) budget)])
        ++ msgs.filter is_protected_message := by
  intro h
  unfold handle_token_overflow_body at h
  cases hp : parse err with
  | error e =>
    rw [hp] at h
    simp at h
  | ok pair =>
    cases pair with
    | mk max_tokens current_tokens =>
      rw [hp] at h
      dsimp only at h
      cases hb : system_budget max_tokens with
      | error e =>
        rw [hb] at h
        simp at h
      | ok sb =>
        rw [hb] at h
        dsimp only at h
        rw [separate_eq_filters] at h
        simp only [Except.ok.injEq] at h
        refine ⟨max_tokens - sb, ?_⟩
        rw [← h]
        by_cases hc : msgs.filter should_compress_message = []
        · simp [hc]
        · simp [hc]

/-! ## Claim C2: output structure of the normal path -/

/-- C2: whenever the try block succeeds, the output is all system messages
first in input order, then at most one synthetic message: present exactly when
a compressible user/tool message existed, with role user, content equal to the
fixed header followed by the cumulative summary, the compression marker set
and the epoch-second timestamp, and then all protected messages in input
order, each being the untouched input record. -/
theorem handle_ok_output_structure :
    ∀ (parse : String → Except String (Nat × Nat)) (est : String → Nat)
      (engine : String → String → Nat → Except String String)
      (now : Nat) (msgs : List Message) (err : String) (out : List Message),
      handle_token_overflow_body parse est engine now msgs err = Except.ok out →
      ∃ summary : String,
        out = msgs.filter (fun m => m.role == "system")
          ++ (if msgs.filter should_compress_message = [] then []
              else [{ role := "user",
                      content := "[Compressed historical conversation content]\n\n" ++ summary,
                      tool_call_id := "", compressed := true,
                      compression_timestamp := some now }])
          ++ msgs.filter is_protected_message
        ∧ (msgs.filter should_compress_message ≠ [] ↔ ∃ m ∈ msgs, should_compress_message m) := by
  intro parse est engine now msgs err out h
  obtain ⟨budget, hout⟩ := handle_body_ok_shape parse est engine now msgs err out h
  refine ⟨progressive_compression engine est (msgs.filter should_compress_message) budget,
    hout, ?_⟩
  constructor
  · intro hne
    by_contra hno
    push_neg at hno
    refine hne (List.filter_eq_nil_iff.2 ?_)
    intro a ha hpa
    exact absurd hpa (by simpa using hno a ha)
  · rintro ⟨m, hm, hpm⟩ hnil
    have := List.filter_eq_nil_iff.1 hnil m hm
    exact this hpm

/-- Witness for C2: a concrete successful run with one message of each class. -/
theorem handle_ok_output_structure_witness :
    handle_token_overflow_body (fun _ => Except.ok (40, 50)) estimate_tokens
      (fun _ _ _ => Except.ok "SUM") 7 [mkSystemMsg "s", mkUserMsg "hi", mkAssistantMsg "a"] "x"
      = Except.ok [mkSystemMsg "s",
          ⟨"user", "[Compressed historical conversation content]\n\nSUM", "", true, some 7⟩,
          mkAssistantMsg "a"]
    ∧ ∃ summary : String,
        [mkSystemMsg "s",
          ⟨"user", "[Compressed historical conversation content]\n\nSUM", "", true, some 7⟩,
          mkAssistantMsg "a"]
        = ([mkSystemMsg "s", mkUserMsg "hi", mkAssistantMsg "a"].filter
            (fun m => m.role == "system"))
          ++ (if [mkSystemMsg "s", mkUserMsg "hi", mkAssistantMsg "a"].filter
                should_compress_message = [] then []
              else [{ role := "user",
                      content := "[Compressed historical conversation content]\n\n" ++ summary,
                      tool_call_id := "", compressed := true,
                      compression_timestamp := some 7 }])
          ++ [mkSystemMsg "s", mkUserMsg "hi", mkAssistantMsg "a"].filter is_protected_message
        ∧ ([mkSystemMsg "s", mkUserMsg "hi", mkAssistantMsg "a"].filter
            should_compress_message ≠ []
          ↔ ∃ m ∈ [mkSystemMsg "s", mkUserMsg "hi", mkAssistantMsg "a"],
              should_compress_message m) :=
  ⟨rfl,
   handle_ok_output_structure (fun _ => Except.ok (40, 50)) estimate_tokens
     (fun _ _ _ => Except.ok "SUM") 7 [mkSystemMsg "s", mkUserMsg "hi", mkAssistantMsg "a"] "x"
     [mkSystemMsg "s",
      ⟨"user", "[Compressed historical conversation content]\n\nSUM", "", true, some 7⟩,
      mkAssistantMsg "a"] rfl⟩

/-! ## Claim C3: emergency fallback shape -/

/-- C3: whenever the try block fails, the public entry point returns exactly
the input system messages in original order followed by one user message: a
copy of the last input user message with the emergency prefix on its content
when a user message exists, and the generic placeholder otherwise.  No other
input message appears, and in this embedding the fallback is a total
function. -/
theorem handle_error_emergency_shape :
    ∀ (parse : String → Except String (Nat × Nat)) (est : String → Nat)
      (engine : String → String → Nat → Except String String)
      (now : Nat) (msgs : List Message) (err : String) (e : String),
      handle_token_overflow_body parse est engine now msgs err = Except.error e →
      handle_token_overflow parse est engine now msgs err
        = msgs.filter (fun m => m.role == "system")
          ++ [match (msgs.filter (fun m => m.role == "user")).getLast? with
              | some last => { last with content := "[Emergency mode] " ++ last.content }
              | none => { role := "user",
                          content := "[Emergency mode] Please assist with current task.",
                          tool_call_id := "", compressed := false,
                          compression_timestamp := none }] := by
  intro parse est engine now msgs err e h
  rw [handle_token_overflow, h]
  dsimp only
  rw [emergency_fallback]
  by_cases hu : msgs.filter (fun m => m.role == "user") = []
  · rw [dif_neg (fun hc => hc hu), hu]
    simp
  · rw [dif_pos hu, List.getLast?_eq_getLast _ hu]

/-- Witness for C3: an injected analyzer failure with two user messages keeps
only the last one, prefixed. -/
theorem handle_error_emergency_shape_witness :
    handle_token_overflow (fun _ => Except.error "boom") estimate_tokens
      (fun _ _ _ => Except.ok "") 3
      [mkSystemMsg "s", mkUserMsg "hi", mkAssistantMsg "a", mkUserMsg "ho"] "x"
      = [mkSystemMsg "s", ⟨"user", "[Emergency mode] ho", "", false, none⟩] :=
  (handle_error_emergency_shape (fun _ => Except.error "boom") estimate_tokens
    (fun _ _ _ => Except.ok "") 3
    [mkSystemMsg "s", mkUserMsg "hi", mkAssistantMsg "a", mkUserMsg "ho"] "x" "boom"
    rfl).trans (by decide)

/-! ## Claim C1: the entry point absorbs failures; output nonempty -/

/-- C1 (amended): for every collaborators and inputs, any exception escaping
the try block is absorbed into the emergency fallback (so the entry point
never raises, including on already-compressed inputs), and the returned list
is nonempty whenever the input list is nonempty.  The nonemptiness claim for
the empty input is refuted by the counterexample below. -/
theorem handle_never_raises_nonempty :
    ∀ (parse : String → Except String (Nat × Nat)) (est : String → Nat)
      (engine : String → String → Nat → Except String String)
      (now : Nat) (msgs : List Message) (err : String),
      (∀ e, handle_token_overflow_body parse est engine now msgs err = Except.error e →
        handle_token_overflow parse est engine now msgs err = emergency_fallback msgs)
      ∧ (msgs ≠ [] → handle_token_overflow parse est engine now msgs err ≠ []) := by
  intro parse est engine now msgs err
  constructor
  · intro e h
    rw [handle_token_overflow, h]
  · intro hne
    cases hb : handle_token_overflow_body parse est engine now msgs err with
    | error e =>
      rw [handle_token_overflow, hb, emergency_fallback]
      by_cases hu : msgs.filter (fun m => m.role == "user") = []
      · rw [dif_neg (fun hc => hc hu)]
        simp
      · rw [dif_pos hu]
        simp
    | ok out =>
      rw [handle_token_overflow, hb]
      obtain ⟨budget, hout⟩ := handle_body_ok_shape parse est engine now msgs err out hb
      rw [hout]
      cases msgs with
      | nil => exact absurd rfl hne
      | cons m rest =>
        intro hempty
        rw [List.append_eq_nil, List.append_eq_nil] at hempty
        obtain ⟨⟨hsys, hmid⟩, hprot⟩ := hempty
        have hcomp : (m :: rest).filter should_compress_message = [] := by
          by_cases hc : (m :: rest).filter should_compress_message = []
          · exact hc
          · rw [if_neg hc] at hmid
            simp at hmid
        have h1 : ¬(m.role == "system") = true :=
          List.filter_eq_nil_iff.1 hsys m (by simp)
        have h2 : ¬should_compress_message m = true :=
          List.filter_eq_nil_iff.1 hcomp m (by simp)
        have h3 : ¬is_protected_message m = true :=
          List.filter_eq_nil_iff.1 hprot m (by simp)
        refine h3 ?_
        simp only [is_protected_message, Bool.and_eq_true, Bool.not_eq_true']
        constructor
        · simpa using h1
        · simpa using h2

/-- Witness for C1 at a one-message input and a failing analyzer. -/
theorem handle_never_raises_nonempty_witness :
    handle_token_overflow (fun _ => Except.error "boom") estimate_tokens
      (fun _ _ _ => Except.ok "") 3
      [⟨"user", "[Compressed historical conversation content]\n\nold", "", true, some 1⟩] "x"
      = emergency_fallback
          [⟨"user", "[Compressed historical conversation content]\n\nold", "", true, some 1⟩]
    ∧ handle_token_overflow (fun _ => Except.error "boom") estimate_tokens
      (fun _ _ _ => Except.ok "") 3
      [⟨"user", "[Compressed historical conversation content]\n\nold", "", true, some 1⟩] "x"
      ≠ [] :=
  ⟨(handle_never_raises_nonempty (fun _ => Except.error "boom") estimate_tokens
      (fun _ _ _ => Except.ok "") 3
      [⟨"user", "[Compressed historical conversation content]\n\nold", "", true, some 1⟩]
      "x").1 "boom" rfl,
   (handle_never_raises_nonempty (fun _ => Except.error "boom") estimate_tokens
      (fun _ _ _ => Except.ok "") 3
      [⟨"user", "[Compressed historical conversation content]\n\nold", "", true, some 1⟩]
      "x").2 (by decide)⟩

/-- C1 counterexample: with the deployed analyzer and a healthy engine, the
empty message list flows through the normal path and the entry point returns
the empty list, refuting the unconditional nonemptiness of the output. -/
theorem handle_empty_input_empty_output :
    handle_token_overflow (fun s => Except.ok (parse_error_info s)) estimate_tokens
      (fun _ _ _ => Except.ok "") 0 [] "token overflow" = [] := by
  decide

/-! ## Claim C9: the service only copies, relabels or omits -/

/-- System messages satisfy neither filter of the protected predicate. -/
theorem filter_protected_of_system (msgs : List Message) :
    (msgs.filter (fun m => m.role == "system")).filter is_protected_message = [] := by
  refine List.filter_eq_nil_iff.2 ?_
  intro a ha
  have h := (List.mem_filter.1 ha).2
  simp [is_protected_message, h]

/-- The protected filter is unchanged by filtering again. -/
theorem filter_protected_idem (msgs : List Message) :
    (msgs.filter is_protected_message).filter is_protected_message
      = msgs.filter is_protected_message := by
  refine List.filter_eq_self.2 ?_
  intro a ha
  exact (List.mem_filter.1 ha).2

/-- C9: every record of the output is an untouched input record, the freshly
built synthetic message, a copy of an input user message with only the
emergency prefix added to its content, or the synthesized placeholder; and the
protected records of the output form a sublist of the protected records of the
input (on the normal path they are exactly the input's protected records, in
order).  Input records are never altered: the embedding's records are values,
and the only content change happens on a copy. -/
theorem handle_no_mutation :
    ∀ (parse : String → Except String (Nat × Nat)) (est : String → Nat)
      (engine : String → String → Nat → Except String String)
      (now : Nat) (msgs : List Message) (err : String),
      (∀ m ∈ handle_token_overflow parse est engine now msgs err,
        m ∈ msgs
        ∨ (∃ s, m = build_compressed_message now s)
        ∨ (∃ u, u ∈ msgs ∧ u.role = "user"
            ∧ m = { u with content := "[Emergency mode] " ++ u.content })
        ∨ m = { role := "user",
                content := "[Emergency mode] Please assist with current task.",
                tool_call_id := "", compressed := false, compression_timestamp := none })
      ∧ ((handle_token_overflow parse est engine now msgs err).filter
          is_protected_message).Sublist (msgs.filter is_protected_message) := by
  intro parse est engine now msgs err
  cases hb : handle_token_overflow_body parse est engine now msgs err with
  | ok out =>
    have hh : handle_token_overflow parse est engine now msgs err = out := by
      rw [handle_token_overflow, hb]
    obtain ⟨budget, hout⟩ := handle_body_ok_shape parse est engine now msgs err out hb
    rw [hh, hout]
    constructor
    · intro m hm
      simp only [List.mem_append] at hm
      rcases hm with (hm | hm) | hm
      · exact Or.inl (List.mem_filter.1 hm).1
      · by_cases hc : msgs.filter should_compress_message = []
        · rw [if_pos hc] at hm
          simp at hm
        · rw [if_neg hc] at hm
          simp only [List.mem_singleton] at hm
          exact Or.inr (Or.inl ⟨_, hm⟩)
      · exact Or.inl (List.mem_filter.1 hm).1
    · rw [List.filter_append, List.filter_append, filter_protected_of_system,
        filter_protected_idem]
      have hmid : ((if msgs.filter should_compress_message = [] then []
          else [build_compressed_message now
            (progressive_compression engine est
              (msgs.filter should_compress_message) budget)]).filter
          is_protected_message) = [] := by
        by_cases hc : msgs.filter should_compress_message = []
        · rw [if_pos hc]
          rfl
        · rw [if_neg hc]
          simp [is_protected_message, should_compress_message, build_compressed_message]
      rw [hmid]
      simp
  | error e =>
    have hh : handle_token_overflow parse est engine now msgs err
        = emergency_fallback msgs := by
      rw [handle_token_overflow, hb]
    rw [hh, emergency_fallback]
    by_cases hu : msgs.filter (fun m => m.role == "user") = []
    · rw [dif_neg (fun hc => hc hu)]
      constructor
      · intro m hm
        simp only [List.mem_append, List.mem_singleton] at hm
        rcases hm with hm | hm
        · exact Or.inl (List.mem_filter.1 hm).1
        · exact Or.inr (Or.inr (Or.inr hm))
      · rw [List.filter_append, filter_protected_of_system]
        have h1 : ([({ role := "user",
                       content := "[Emergency mode] Please assist with current task.",
                       tool_call_id := "", compressed := false,
                       compression_timestamp := none } : Message)].filter
            is_protected_message) = [] := by
          simp [is_protected_message, should_compress_message]
        rw [h1]
        simp
    · rw [dif_pos hu]
      have hlast := List.getLast_mem hu
      have hmem : (msgs.filter (fun m => m.role == "user")).getLast hu ∈ msgs :=
        (List.mem_filter.1 hlast).1
      have hrole : ((msgs.filter (fun m => m.role == "user")).getLast hu).role = "user" := by
        have h := (List.mem_filter.1 hlast).2
        simpa using h
      constructor
      · intro m hm
        simp only [List.mem_append, List.mem_singleton] at hm
        rcases hm with hm | hm
        · exact Or.inl (List.mem_filter.1 hm).1
        · exact Or.inr (Or.inr (Or.inl ⟨_, hmem, hrole, hm⟩))
      · rw [List.filter_append, filter_protected_of_system]
        have hgen : ∀ x : Message, x.role = "user" →
            ([x].filter is_protected_message) = [] := by
          intro x hx
          simp [is_protected_message, should_compress_message, hx]
        rw [hgen ({ (msgs.filter (fun m => m.role == "user")).getLast hu with
                    content := "[Emergency mode] "
                      ++ ((msgs.filter (fun m => m.role == "user")).getLast hu).content })
          hrole]
        simp

/-- Witness for C9: a concrete run in which the untouched assistant record is
found in the output and the protected sublist fact holds. -/
theorem handle_no_mutation_witness :
    (mkAssistantMsg "a" ∈ handle_token_overflow (fun _ => Except.ok (40, 50))
        estimate_tokens (fun _ _ _ => Except.ok "SUM") 7
        [mkSystemMsg "s", mkUserMsg "hi", mkAssistantMsg "a"] "x"
      ∨ (∃ s, mkAssistantMsg "a" = build_compressed_message 7 s)
      ∨ False)
    ∧ (mkAssistantMsg "a" ∈ [mkSystemMsg "s", mkUserMsg "hi", mkAssistantMsg "a"]
      ∨ (∃ s, mkAssistantMsg "a" = build_compressed_message 7 s)
      ∨ (∃ u, u ∈ [mkSystemMsg "s", mkUserMsg "hi", mkAssistantMsg "a"] ∧ u.role = "user"
          ∧ mkAssistantMsg "a" = { u with content := "[Emergency mode] " ++ u.content })
      ∨ mkAssistantMsg "a" = { role := "user",
                               content := "[Emergency mode] Please assist with current task.",
                               tool_call_id := "", compressed := false,
                               compression_timestamp := none })
    ∧ ((handle_token_overflow (fun _ => Except.ok (40, 50)) estimate_tokens
        (fun _ _ _ => Except.ok "SUM") 7
        [mkSystemMsg "s", mkUserMsg "hi", mkAssistantMsg "a"] "x").filter
        is_protected_message).Sublist
      ([mkSystemMsg "s", mkUserMsg "hi", mkAssistantMsg "a"].filter is_protected_message) :=
  ⟨Or.inl (by decide),
   (handle_no_mutation (fun _ => Except.ok (40, 50)) estimate_tokens
      (fun _ _ _ => Except.ok "SUM") 7
      [mkSystemMsg "s", mkUserMsg "hi", mkAssistantMsg "a"] "x").1
     (mkAssistantMsg "a") (by decide),
   (handle_no_mutation (fun _ => Except.ok (40, 50)) estimate_tokens
      (fun _ _ _ => Except.ok "SUM") 7
      [mkSystemMsg "s", mkUserMsg "hi", mkAssistantMsg "a"] "x").2⟩

/-! ## Claim C5: the three-round cap of progressive compression -/

/-- C5: progressive compression invokes the engine at most 3 times; the trace
of engine invocations is exactly one entry per processed segment, in order,
the j-th receiving as input summary the loop result of the first j segments;
and with 5 segments exactly 3 engine calls occur, the two excess segments are
never passed to the engine, and the final summary ends with the notice naming
the 2 skipped segments. -/
theorem progressive_compression_round_cap :
    ∀ (engine : String → String → Nat → Except String String) (est : String → Nat)
      (messages : List Message) (budget_tokens : Nat),
      (engine_call_trace engine est messages budget_tokens).length
        = min (split_into_segments est messages (budget_tokens / 2)).length 3
      ∧ (engine_call_trace engine est messages budget_tokens).length ≤ 3
      ∧ engine_call_trace engine est messages budget_tokens
          = (List.range
              (min (split_into_segments est messages (budget_tokens / 2)).length 3)).map
              (fun j => (compression_rounds_loop engine (budget_tokens / 2) 0 ""
                          ((split_into_segments est messages (budget_tokens / 2)).take j),
                        ((split_into_segments est messages (budget_tokens / 2)).getD j
                          ⟨"", 0, []⟩).content,
                        budget_tokens / 2))
      ∧ progressive_compression engine est messages budget_tokens
          = (if 3 < (split_into_segments est messages (budget_tokens / 2)).length
             then (compression_rounds_trace engine (budget_tokens / 2) 0 ""
                    ((split_into_segments est messages (budget_tokens / 2)).take
                      (min (split_into_segments est messages (budget_tokens / 2)).length 3))).1
               ++ "\n\n[Notice: "
               ++ toString ((split_into_segments est messages (budget_tokens / 2)).length - 3)
               ++ " segments not processed due to compression round limit]"
             else (compression_rounds_trace engine (budget_tokens / 2) 0 ""
                    ((split_into_segments est messages (budget_tokens / 2)).take
                      (min (split_into_segments est messages (budget_tokens / 2)).length 3))).1)
      ∧ ((split_into_segments est messages (budget_tokens / 2)).length = 5 →
          (engine_call_trace engine est messages budget_tokens).length = 3
          ∧ progressive_compression engine est messages budget_tokens
            = compression_rounds_loop engine (budget_tokens / 2) 0 ""
                ((split_into_segments est messages (budget_tokens / 2)).take 3)
              ++ "\n\n[Notice: 2 segments not processed due to compression round limit]") := by
  intro engine est messages budget_tokens
  have hlen : (engine_call_trace engine est messages budget_tokens).length
      = min (split_into_segments est messages (budget_tokens / 2)).length 3 := by
    rw [engine_call_trace, compression_rounds_trace_spec]
    simp only [List.length_map, List.length_range, List.length_take, maxCompressionRounds]
    omega
  have htrace : engine_call_trace engine est messages budget_tokens
      = (List.range
          (min (split_into_segments est messages (budget_tokens / 2)).length 3)).map
          (fun j => (compression_rounds_loop engine (budget_tokens / 2) 0 ""
                      ((split_into_segments est messages (budget_tokens / 2)).take j),
                    ((split_into_segments est messages (budget_tokens / 2)).getD j
                      ⟨"", 0, []⟩).content,
                    budget_tokens / 2)) := by
    rw [engine_call_trace, compression_rounds_trace_spec]
    simp only [List.length_take, maxCompressionRounds]
    have hm : min (min (split_into_segments est messages (budget_tokens / 2)).length 3)
        (split_into_segments est messages (budget_tokens / 2)).length
        = min (split_into_segments est messages (budget_tokens / 2)).length 3 := by
      omega
    rw [hm]
    refine List.map_congr_left ?_
    intro j hj
    have hj3 : j < min (split_into_segments est messages (budget_tokens / 2)).length 3 :=
      List.mem_range.1 hj
    rw [List.take_take, Nat.min_eq_left (by omega : j ≤ min
      (split_into_segments est messages (budget_tokens / 2)).length 3)]
    rw [getD_take _ _ _ _ (by omega)]
  have hprog : progressive_compression engine est messages budget_tokens
      = (if 3 < (split_into_segments est messages (budget_tokens / 2)).length
         then (compression_rounds_trace engine (budget_tokens / 2) 0 ""
                ((split_into_segments est messages (budget_tokens / 2)).take
                  (min (split_into_segments est messages (budget_tokens / 2)).length 3))).1
           ++ "\n\n[Notice: "
           ++ toString ((split_into_segments est messages (budget_tokens / 2)).length - 3)
           ++ " segments not processed due to compression round limit]"
         else (compression_rounds_trace engine (budget_tokens / 2) 0 ""
                ((split_into_segments est messages (budget_tokens / 2)).take
                  (min (split_into_segments est messages (budget_tokens / 2)).length 3))).1) := by
    rw [progressive_compression]
    simp only [maxCompressionRounds]
    rw [compression_rounds_trace_spec]
  refine ⟨hlen, by omega, htrace, hprog, ?_⟩
  intro h5
  constructor
  · rw [hlen, h5]
    omega
  · rw [progressive_compression]
    simp only [maxCompressionRounds]
    rw [h5]
    rw [if_pos (by norm_num)]
    have hmin : min 5 3 = 3 := by omega
    rw [hmin]
    have hnotice : ("\n\n[Notice: " ++ toString (5 - 3)
        ++ " segments not processed due to compression round limit]")
        = "\n\n[Notice: 2 segments not processed due to compression round limit]" := by
      decide
    rw [← hnotice]
    simp [String.append_assoc]

/-- Witness for C5: five single-message segments, a healthy engine, exactly
three calls and the two-segment notice. -/
theorem progressive_compression_round_cap_witness :
    (split_into_segments estimate_tokens
      [mkUserMsg "x", mkUserMsg "x", mkUserMsg "x", mkUserMsg "x", mkUserMsg "x"] (6 / 2)).length = 5
    ∧ (engine_call_trace (fun _ _ _ => Except.ok "s") estimate_tokens
        [mkUserMsg "x", mkUserMsg "x", mkUserMsg "x", mkUserMsg "x", mkUserMsg "x"] 6).length = 3
    ∧ progressive_compression (fun _ _ _ => Except.ok "s") estimate_tokens
        [mkUserMsg "x", mkUserMsg "x", mkUserMsg "x", mkUserMsg "x", mkUserMsg "x"] 6
      = compression_rounds_loop (fun _ _ _ => Except.ok "s") (6 / 2) 0 ""
          ((split_into_segments estimate_tokens
            [mkUserMsg "x", mkUserMsg "x", mkUserMsg "x", mkUserMsg "x", mkUserMsg "x"] (6 / 2)).take 3)
        ++ "\n\n[Notice: 2 segments not processed due to compression round limit]" :=
  ⟨by decide,
   ((progressive_compression_round_cap (fun _ _ _ => Except.ok "s") estimate_tokens
      [mkUserMsg "x", mkUserMsg "x", mkUserMsg "x", mkUserMsg "x", mkUserMsg "x"] 6).2.2.2.2
     (by decide)).1,
   ((progressive_compression_round_cap (fun _ _ _ => Except.ok "s") estimate_tokens
      [mkUserMsg "x", mkUserMsg "x", mkUserMsg "x", mkUserMsg "x", mkUserMsg "x"] 6).2.2.2.2
     (by decide)).2⟩

/-! ## Claim C6: deterministic fallback of the compression engine -/

/-- C6: when the model call fails, no exception propagates and the result is
the deterministic truncation fallback in its three cases: prior summary with a
positive remaining character budget max_tokens * 3 minus the summary length
minus the 100-character reserve, prior summary whose length exhausts that
budget, and no prior summary; every case appends the explicit ellipsis
marker. -/
theorem compress_content_fallback_deterministic :
    ∀ (llm : List (String × String) → Except String (Option String))
      (summary content : String) (max_tokens : Nat) (e : String),
      llm [("system", compression_system_message),
           ("user", get_compression_prompt summary content)] = Except.error e →
      (summary ≠ "" →
        (summary.length + 100 < max_tokens * 3 →
          compress_content llm summary content max_tokens
            = summary ++ "\n\n[New Content Summary] "
              ++ content.take (max_tokens * 3 - summary.length - 100) ++ "...")
        ∧ (max_tokens * 3 ≤ summary.length + 100 →
          compress_content llm summary content max_tokens
            = summary.take (max_tokens * 3) ++ "..."))
      ∧ (summary = "" →
        compress_content llm summary content max_tokens
          = content.take (max_tokens * 3) ++ "...") := by
  intro llm summary content mt e h
  have hcc : compress_content llm summary content mt
      = fallback_compression summary content mt := by
    rw [compress_content, h]
  constructor
  · intro hs
    constructor
    · intro hlt
      rw [hcc]
      simp only [fallback_compression]
      rw [if_pos hs,
        if_pos (by omega : (0:Int) < ((mt * 3 : Nat) : Int) - (summary.length : Int) - 100)]
      have ht : (((mt * 3 : Nat) : Int) - (summary.length : Int) - 100).toNat
          = mt * 3 - summary.length - 100 := by
        omega
      rw [ht]
    · intro hge
      rw [hcc]
      simp only [fallback_compression]
      rw [if_pos hs,
        if_neg (by omega : ¬((0:Int) < ((mt * 3 : Nat) : Int) - (summary.length : Int) - 100))]
  · intro hs
    rw [hcc]
    simp only [fallback_compression]
    rw [if_neg (fun hne => hne hs)]

/-- Witness for C6: a failing model call with a short prior summary keeps the
summary and appends the truncated new content with the ellipsis marker. -/
theorem compress_content_fallback_deterministic_witness :
    compress_content (fun _ => Except.error "down") "S" "contentcontent" 40
      = "S" ++ "\n\n[New Content Summary] "
        ++ ("contentcontent" : String).take (40 * 3 - ("S" : String).length - 100) ++ "..." :=
  ((compress_content_fallback_deterministic (fun _ => Except.error "down")
      "S" "contentcontent" 40 "down" rfl).1 (by decide)).1 (by decide)

/-- Witness for C10 at a two-message input. -/
theorem split_segments_token_accounting_witness :
    ∃ groups : List (List Message),
      groups.flatten = [mkUserMsg "abc", mkToolMsg "t1" "xyz"]
      ∧ (∀ g ∈ groups, g ≠ [])
      ∧ (split_into_segments estimate_tokens
          [mkUserMsg "abc", mkToolMsg "t1" "xyz"] 5).map segProj
          = groups.map (groupProj estimate_tokens)
      ∧ ∀ seg ∈ split_into_segments estimate_tokens
          [mkUserMsg "abc", mkToolMsg "t1" "xyz"] 5,
          seg.estimated_tokens ≤ estimate_tokens seg.content :=
  split_segments_token_accounting [mkUserMsg "abc", mkToolMsg "t1" "xyz"] 5

end Compression
